import Mathlib

/-!
Verification of the tui.grid clipboard/paste interaction core.

The development shallowly embeds two layers of the widget:

* the Row Data Store operations `paste`, `delRange` and `del`
  (`model/data/rowList.js` is not part of the sources at hand, only its unit
  tests are, so these operations are modelled from the design spec,
  sections 3, 4.1 and 4.2; each such definition is marked
  `Modelled from the spec:` in its doc comment);
* the Clipboard Controller keyboard state machine
  (`src/js/view/clipboard.js`), translated function by function.

Machine integers do not occur; all indices are natural numbers (JavaScript
index arithmetic that can go below zero is carried out in `Int` where the
source can produce a negative intermediate).
-/

set_option autoImplicit false

/-! ## Row Data Store: data model (modelled from the spec, section 3) -/

/-- Modelled from the spec: a Column Schema Entry
`{ columnName, title, editable, editType, isHidden }` together with the
per-column default value used when rows are appended.  The `title` and
`editType` fields play no role in any verified property and are omitted;
`editable` stands for the presence of a usable `editOption`. -/
structure ColumnInfo where
  columnName : String
  editable : Bool
  isHidden : Bool
  defaultValue : String
deriving DecidableEq, Repr

/-- Modelled from the spec: a Row is a mapping from column name to cell value
with a stable row key plus optional metadata: a `disabled` flag and a
`rowSpan` map (column name to span count; the count includes the main row,
so a span of `n` on row `i` makes rows `i+1 … i+n-1` followers). -/
structure Row where
  rowKey : Nat
  disabled : Bool
  rowSpan : List (String × Nat)
  cells : List (String × String)
deriving DecidableEq, Repr

/-- Modelled from the spec: the Row Data Store is constructed with a column
schema and an ordered row list. -/
structure Grid where
  columns : List ColumnInfo
  rows : List Row
deriving DecidableEq, Repr

/-- Address `{row, column}`: zero-based positional indices over the visible
row/column sequence. -/
structure Address where
  row : Nat
  column : Nat
deriving DecidableEq, Repr

/-- Range `{row: [start, end], column: [start, end]}` with inclusive,
normalized bounds. -/
structure Range where
  rowStart : Nat
  rowEnd : Nat
  colStart : Nat
  colEnd : Nat
deriving DecidableEq, Repr

/-- First binding of a key in an association list. -/
def lookupVal {α : Type} : List (String × α) → String → Option α
  | [], _ => none
  | (k, v) :: rest, key => if k = key then some v else lookupVal rest key

/-- Replace the first binding of a key, appending a fresh binding when the
key is absent (the behaviour of a Backbone `model.set` on one attribute). -/
def setVal : List (String × String) → String → String → List (String × String)
  | [], key, value => [(key, value)]
  | (k, v) :: rest, key, value =>
      if k = key then (key, value) :: rest else (k, v) :: setVal rest key value

/-- Modelled from the spec: display order excludes hidden columns from
index-based addressing used by paste/selection. -/
def visibleColumns (g : Grid) : List ColumnInfo :=
  g.columns.filter (fun c => !c.isHidden)

/-- Modelled from the spec: resolve a visible column index to the underlying
column name; hidden columns are excluded from the positional sequence
entirely. -/
def resolveColumnName (g : Grid) (idx : Nat) : Option String :=
  ((visibleColumns g)[idx]?).map (fun c => c.columnName)

/-- Schema entry for a column name (first match). -/
def findColumn (g : Grid) (cn : String) : Option ColumnInfo :=
  g.columns.find? (fun c => c.columnName == cn)

/-- Modelled from the spec: a column has edit capability iff its
`editOption` is present. -/
def columnEditable (g : Grid) (cn : String) : Bool :=
  match findColumn g cn with
  | some c => c.editable
  | none => false

/-- Span count a row owns for a column (`0` when the row starts no span
there). -/
def spanCount (r : Row) (cn : String) : Nat :=
  (lookupVal r.rowSpan cn).getD 0

/-- Modelled from the spec: a cell at row index `i` is a non-main (follower)
member of a row-span group for column `cn` iff some earlier row `j < i`
owns a span on `cn` that still covers row `i`. -/
def isRowSpanFollower (rows : List Row) (i : Nat) (cn : String) : Bool :=
  (List.range i).any (fun j =>
    match rows[j]? with
    | some rj => decide (i < j + spanCount rj cn)
    | none => false)

/-- Whether the row at index `i` exists and carries the `disabled` flag. -/
def rowDisabled (g : Grid) (i : Nat) : Bool :=
  match g.rows[i]? with
  | some r => r.disabled
  | none => false

/-- Modelled from the spec: a write to `(i, cn)` is performed only when the
target row exists and is not disabled, the column has edit capability, and
the cell is not a row-span follower. -/
def cellWritable (g : Grid) (i : Nat) (cn : String) : Bool :=
  match g.rows[i]? with
  | some _ => !rowDisabled g i && columnEditable g cn && !isRowSpanFollower g.rows i cn
  | none => false

/-- Modelled from the spec: a row appended during paste takes the schema
default/empty value in every column and carries no metadata. -/
def defaultRow (g : Grid) (key : Nat) : Row :=
  { rowKey := key
    disabled := false
    rowSpan := []
    cells := g.columns.map (fun c => (c.columnName, c.defaultValue)) }

/-- Modelled from the spec: append new rows (with default values for all
columns) until the row at index `i` exists. -/
def growTo (g : Grid) (i : Nat) : Grid :=
  if i < g.rows.length then g
  else
    let extra := (List.range (i + 1 - g.rows.length)).map
      (fun k => defaultRow g (g.rows.length + k))
    { g with rows := g.rows ++ extra }

/-- Overwrite one column binding of a row. -/
def setRowCell (r : Row) (cn v : String) : Row :=
  { r with cells := setVal r.cells cn v }

/-- Overwrite one column binding of the row at index `j`; a no-op when the
row does not exist. -/
def setRowAt (rows : List Row) (j : Nat) (cn v : String) : List Row :=
  match rows[j]? with
  | some r => rows.set j (setRowCell r cn v)
  | none => rows

/-- Overwrite the `cn` binding of the `k` consecutive rows starting at
index `j`. -/
def setRowsFrom (rows : List Row) (j : Nat) (cn v : String) : Nat → List Row
  | 0 => rows
  | k + 1 => setRowsFrom (setRowAt rows j cn v) (j + 1) cn v k

/-- Modelled from the spec: set the cell value at `(i, cn)`.  When the
addressed row owns a row span on that column, the write is mirrored into
the follower rows of the span ("follower rows mirror the main row's
value", section 3; the repository's span unit test observes the follower's
value becoming the main row's pasted value).  A row without a span on `cn`
receives a plain single-row write; a missing row is a no-op. -/
def setCellValue (g : Grid) (i : Nat) (cn v : String) : Grid :=
  match g.rows[i]? with
  | some r => { g with rows := setRowsFrom g.rows i cn v (max (spanCount r cn) 1) }
  | none => g

/-- Stored cell value at `(i, cn)` (followers hold their mirrored copy of
the main row's value). -/
def getValue (g : Grid) (i : Nat) (cn : String) : Option String :=
  (g.rows[i]?).bind (fun r => lookupVal r.cells cn)

/-- Modelled from the spec: one `paste` cell.  A target column index beyond
the visible column count is skipped outright (no wrap, no clamp, no row
growth); otherwise the target row is created on demand, the visible index
is resolved to a column name, and the write happens only when the cell is
writable. -/
def pasteCell (g : Grid) (i colIdx : Nat) (v : String) : Grid :=
  if colIdx < (visibleColumns g).length then
    match resolveColumnName (growTo g i) colIdx with
    | some cn =>
        if cellWritable (growTo g i) i cn then setCellValue (growTo g i) i cn v
        else growTo g i
    | none => growTo g i
  else g

/-- Modelled from the spec: paste one matrix row left to right starting at
visible column `colIdx`. -/
def pasteRowVals (g : Grid) (i colIdx : Nat) : List String → Grid
  | [] => g
  | v :: rest => pasteRowVals (pasteCell g i colIdx v) i (colIdx + 1) rest

/-- Modelled from the spec: paste the matrix rows top to bottom. -/
def pasteRows (g : Grid) (i colIdx : Nat) : List (List String) → Grid
  | [] => g
  | vals :: rest => pasteRows (pasteRowVals g i colIdx vals) (i + 1) colIdx rest

/-- Modelled from the spec: `paste(matrix, startAddress)` of the Row Data
Store, section 4.1. -/
def Grid.paste (g : Grid) (matrix : List (List String)) (a : Address) : Grid :=
  pasteRows g a.row a.column matrix

/-- Modelled from the spec: clear `(i, cn)` to the empty string subject to
the same writability exclusions as paste. -/
def delCellAt (g : Grid) (i : Nat) (cn : String) : Grid :=
  if cellWritable g i cn then setCellValue g i cn "" else g

/-- Clear the cell addressed by a visible column index. -/
def delVisibleCell (g : Grid) (i colIdx : Nat) : Grid :=
  match resolveColumnName g colIdx with
  | some cn => delCellAt g i cn
  | none => g

/-- Clear `n` consecutive visible cells of row `i` starting at `colIdx`. -/
def delRowCells : Grid → Nat → Nat → Nat → Grid
  | g, _, _, 0 => g
  | g, i, colIdx, n + 1 => delRowCells (delVisibleCell g i colIdx) i (colIdx + 1) n

/-- Clear an `nRows × nCols` block of visible cells. -/
def delRowsRange : Grid → Nat → Nat → Nat → Nat → Grid
  | g, _, _, _, 0 => g
  | g, i, colStart, nCols, n + 1 =>
      delRowsRange (delRowCells g i colStart nCols) (i + 1) colStart nCols n

/-- Modelled from the spec: `delRange(range)` of the Row Data Store,
section 4.2 — clear every visible cell of the inclusive rectangle subject
to the writability exclusions. -/
def delRange (g : Grid) (r : Range) : Grid :=
  delRowsRange g r.rowStart r.colStart (r.colEnd + 1 - r.colStart) (r.rowEnd + 1 - r.rowStart)

/-- Index of the row carrying a row key. -/
def indexOfRowKey (g : Grid) (key : Nat) : Option Nat :=
  g.rows.findIdx? (fun r => r.rowKey == key)

/-- Modelled from the spec: `del(rowKey, columnName)` of the Row Data Store,
section 4.2 — clear one cell under the same exclusions. -/
def delByKey (g : Grid) (key : Nat) (cn : String) : Grid :=
  match indexOfRowKey g key with
  | some i => delCellAt g i cn
  | none => g

/-! ## Clip matrix parsing (`_getProcessClipBoardData`, clipboard.js 429-440) -/

/-- JavaScript `String.prototype.split` with a single-character separator,
on the character list of the string: every occurrence of the separator
starts a new chunk, and the result is never empty (splitting the empty
string yields one empty chunk). -/
def splitChar (sep : Char) : List Char → List (List Char)
  | [] => [[]]
  | c :: rest =>
      let r := splitChar sep rest
      if c = sep then [] :: r
      else
        match r with
        | [] => [[c]]
        | h :: t => (c :: h) :: t

/-- `text.split(sep)` lifted to `String`. -/
def jsSplit (s : String) (sep : Char) : List String :=
  (splitChar sep s.data).map (fun l => String.mk l)

/-- `_getProcessClipBoardData`: split the capture-surface text on newline,
then split every row on tab. -/
def getProcessClipBoardData (text : String) : List (List String) :=
  (jsSplit text '\n').map (fun row => jsSplit row '\t')

/-! ## Clipboard Controller (`src/js/view/clipboard.js`) -/

/-- Key codes used by the controller (`constMap.keyCode`; standard DOM
values). -/
def keyTAB : Nat := 9
def keyENTER : Nat := 13
def keySPACE : Nat := 32
def keyPAGE_UP : Nat := 33
def keyPAGE_DOWN : Nat := 34
def keyEND : Nat := 35
def keyHOME : Nat := 36
def keyLEFT_ARROW : Nat := 37
def keyUP_ARROW : Nat := 38
def keyRIGHT_ARROW : Nat := 39
def keyDOWN_ARROW : Nat := 40
def keyDEL : Nat := 46
def keyCHAR_A : Nat := 65
def keyCHAR_C : Nat := 67
def keyCHAR_V : Nat := 86

/-- Modifier bits and key code of a `keydown` event. -/
structure KeyEvent where
  shiftKey : Bool
  ctrlKey : Bool
  metaKey : Bool
  keyCode : Nat
deriving DecidableEq, Repr

/-- Calls the controller makes into its collaborator models (focus model,
selection model, render model, platform clipboard); the collaborators
themselves are outside the translated source, so the calls are recorded as
effects. -/
inductive Eff where
  | preventDefault
  | selEnd
  | focusPrevRow
  | focusNextRow
  | focusPrevCol
  | focusNextCol
  | focusFirstCol
  | focusLastCol
  | focusFirstCell
  | focusLastCell
  | focusPage (down : Bool)
  | focusInCell
  | focusInNext
  | focusInPrev
  | selectAll
  | copy
  | selUpdate (row col : Int)
  | scroll
deriving DecidableEq, Repr

/-- Controller state: the view's own fields (`isLocked` as a deadline for
the pending `_unlock` timeout, `pasting`, the set of registered one-shot
`keyup` handlers, the textarea value) together with the read surface of the
collaborator models it consults (data model, selection range, focus
address and identifiers, and the row index computed by
`_getPageMovedRowIndex`, which depends on the external coordinate model). -/
structure CtrlState where
  lockUntil : Option Nat
  pasting : Bool
  keyupHandlers : Nat
  clipText : String
  grid : Grid
  selection : Option Range
  focusIdx : Address
  focusedRowKey : Option Nat
  focusedColumnName : String
  getPageMovedRowIndex : Nat → Bool → Nat

/-- Whether the re-entrancy lock is held at time `t`: `_lock` schedules
`_unlock` 10 ms ahead, so the flag is up strictly before that deadline. -/
def lockedAt (s : CtrlState) (t : Nat) : Bool :=
  match s.lockUntil with
  | some u => decide (t < u)
  | none => false

/-- `selectionModel.getStartIndex()` — Modelled from the spec: the top-left
corner of the normalized range (section 4.3); `model/selection.js` is not
among the sources. -/
def getStartIndex (r : Range) : Address :=
  ⟨r.rowStart, r.colStart⟩

/-- `_getIndexBeforeMove` (clipboard.js 226-247): start from the focused
index; when a selection exists take `range[0]` on each axis, replaced by
`range[1]` whenever `range[1]` exceeds the focused index on that axis. -/
def getIndexBeforeMove (s : CtrlState) : Nat × Nat :=
  match s.selection with
  | none => (s.focusIdx.row, s.focusIdx.column)
  | some r =>
      ((if r.rowEnd > s.focusIdx.row then r.rowEnd else r.rowStart),
       (if r.colEnd > s.focusIdx.column then r.colEnd else r.colStart))

/-- `_del` (clipboard.js 474-486): clear the whole selected range when a
selection exists, otherwise the focused cell. -/
def delAction (s : CtrlState) : CtrlState :=
  match s.selection with
  | some r => { s with grid := delRange s.grid r }
  | none =>
      match s.focusedRowKey with
      | some key => { s with grid := delByKey s.grid key s.focusedColumnName }
      | none => s

/-- `_keyIn` (clipboard.js 148-209): the plain (no modifier) dispatch
table.  A blank focused row key returns immediately; otherwise the key is
dispatched, `preventDefault` fires only for recognized keys, and
`selectionModel.end()` is always invoked last. -/
def keyIn (s : CtrlState) (keyCode : Nat) : CtrlState × List Eff :=
  if s.focusedRowKey.isNone then (s, [])
  else
    let step : CtrlState × List Eff × Bool :=
      if keyCode = keyUP_ARROW then (s, [Eff.focusPrevRow], true)
      else if keyCode = keyDOWN_ARROW then (s, [Eff.focusNextRow], true)
      else if keyCode = keyLEFT_ARROW then (s, [Eff.focusPrevCol], true)
      else if keyCode = keyRIGHT_ARROW then (s, [Eff.focusNextCol], true)
      else if keyCode = keyPAGE_UP then (s, [Eff.focusPage false], true)
      else if keyCode = keyPAGE_DOWN then (s, [Eff.focusPage true], true)
      else if keyCode = keyHOME then (s, [Eff.focusFirstCol], true)
      else if keyCode = keyEND then (s, [Eff.focusLastCol], true)
      else if keyCode = keySPACE ∨ keyCode = keyENTER then (s, [Eff.focusInCell], true)
      else if keyCode = keyDEL then (delAction s, [], true)
      else if keyCode = keyTAB then (s, [Eff.focusInNext], true)
      else (s, [], false)
    (step.1, step.2.1 ++ (if step.2.2 then [Eff.preventDefault] else []) ++ [Eff.selEnd])

/-- `_pasteWhenKeyupCharV` (clipboard.js 379-393): clear the capture
surface; when no paste is armed yet, arm one and register a `keyup`
handler. -/
def pasteWhenKeyupCharV (s : CtrlState) : CtrlState :=
  let s1 := { s with clipText := "" }
  if s1.pasting then s1
  else { s1 with pasting := true, keyupHandlers := s1.keyupHandlers + 1 }

/-- `_pasteToGrid` (clipboard.js 407-422): the paste origin is the
selection's start index when a selection exists, otherwise the focused
index; the read matrix is pasted there and every `keyup` handler is
removed. -/
def pasteToGrid (s : CtrlState) : CtrlState :=
  let startIdx : Address :=
    match s.selection with
    | some r => getStartIndex r
    | none => s.focusIdx
  let data := getProcessClipBoardData s.clipText
  { s with keyupHandlers := 0, grid := Grid.paste s.grid data startIdx }

/-- Run `n` registered `keyup` handlers (each one is the closure installed
by `_pasteWhenKeyupCharV`: `_pasteToGrid()` then `pasting = false`),
returning the state and the number of data reads/pastes performed. -/
def runKeyupHandlers : Nat → CtrlState → CtrlState × Nat
  | 0, s => (s, 0)
  | n + 1, s =>
      let s1 := { pasteToGrid s with pasting := false }
      let rest := runKeyupHandlers n s1
      (rest.1, rest.2 + 1)

/-- One `keyup` event: the handlers registered at that moment run. -/
def onKeyup (s : CtrlState) : CtrlState × Nat :=
  runKeyupHandlers s.keyupHandlers s

/-- `k` consecutive `keyup` events; the second component counts the data
reads/pastes they trigger in total. -/
def keyups : Nat → CtrlState → CtrlState × Nat
  | 0, s => (s, 0)
  | k + 1, s =>
      let p := onKeyup s
      let rest := keyups k p.1
      (rest.1, p.2 + rest.2)

/-- `_keyInWithCtrl` (clipboard.js 350-373): select-all, copy, first/last
cell focus, and arming the paste pipeline; no `preventDefault` here. -/
def keyInWithCtrl (s : CtrlState) (keyCode : Nat) : CtrlState × List Eff :=
  if keyCode = keyCHAR_A then (s, [Eff.selectAll])
  else if keyCode = keyCHAR_C then (s, [Eff.copy])
  else if keyCode = keyHOME then (s, [Eff.focusFirstCell])
  else if keyCode = keyEND then (s, [Eff.focusLastCell])
  else if keyCode = keyCHAR_V then (pasteWhenKeyupCharV s, [])
  else (s, [])

/-- `_keyInWithShift` (clipboard.js 274-343): move the far corner obtained
from `_getIndexBeforeMove`, then update the selection (and request a
scroll) when the new corner addresses an existing row and visible column.
The page distance and the scroll amount come from collaborator models. -/
def keyInWithShift (s : CtrlState) (keyCode : Nat) : CtrlState × List Eff :=
  let i0 := getIndexBeforeMove s
  let visLen := (visibleColumns s.grid).length
  let step : Int × Int × Bool × Bool × List Eff :=
    if keyCode = keyUP_ARROW then ((i0.1 : Int) - 1, (i0.2 : Int), true, true, [])
    else if keyCode = keyDOWN_ARROW then ((i0.1 : Int) + 1, (i0.2 : Int), true, true, [])
    else if keyCode = keyLEFT_ARROW then ((i0.1 : Int), (i0.2 : Int) - 1, true, true, [])
    else if keyCode = keyRIGHT_ARROW then ((i0.1 : Int), (i0.2 : Int) + 1, true, true, [])
    else if keyCode = keyPAGE_UP then
      ((s.getPageMovedRowIndex i0.1 false : Int), (i0.2 : Int), true, true, [])
    else if keyCode = keyPAGE_DOWN then
      ((s.getPageMovedRowIndex i0.1 true : Int), (i0.2 : Int), true, true, [])
    else if keyCode = keyHOME then ((i0.1 : Int), 0, true, true, [])
    else if keyCode = keyEND then ((i0.1 : Int), (visLen : Int) - 1, true, true, [])
    else if keyCode = keyENTER then ((i0.1 : Int), (i0.2 : Int), false, true, [])
    else if keyCode = keyTAB then ((i0.1 : Int), (i0.2 : Int), false, true, [Eff.focusInPrev])
    else ((i0.1 : Int), (i0.2 : Int), false, false, [])
  let row := step.1
  let col := step.2.1
  let isSelection := step.2.2.1
  let identified := step.2.2.2.1
  let isValid := 0 ≤ col ∧ col < (visLen : Int) ∧ 0 ≤ row ∧ row < (s.grid.rows.length : Int)
  let effs :=
    step.2.2.2.2 ++
      (if isSelection ∧ isValid then [Eff.selUpdate row col, Eff.scroll] else []) ++
      (if identified then [Eff.preventDefault] else [])
  (s, effs)

/-- `_keyInWithShiftAndCtrl` (clipboard.js 447-466): extend the selection
to the top-left or bottom-right grid corner. -/
def keyInWithShiftAndCtrl (s : CtrlState) (keyCode : Nat) : CtrlState × List Eff :=
  if keyCode = keyHOME then (s, [Eff.selUpdate 0 0, Eff.preventDefault])
  else if keyCode = keyEND then
    (s, [Eff.selUpdate ((s.grid.rows.length : Int) - 1)
          (((visibleColumns s.grid).length : Int) - 1),
        Eff.preventDefault])
  else (s, [])

/-- The four-way modifier classification of `_onKeyDown`
(clipboard.js 131-139). -/
def dispatchKey (s : CtrlState) (e : KeyEvent) : CtrlState × List Eff :=
  if e.shiftKey && (e.ctrlKey || e.metaKey) then keyInWithShiftAndCtrl s e.keyCode
  else if e.shiftKey then keyInWithShift s e.keyCode
  else if e.ctrlKey || e.metaKey then keyInWithCtrl s e.keyCode
  else keyIn s e.keyCode

/-- Result of `_onKeyDown`: the successor state, the recorded collaborator
calls, and whether the event was dispatched at all (it is not while the
re-entrancy lock is held). -/
structure KeyDownOut where
  state : CtrlState
  effs : List Eff
  dispatched : Bool

/-- `_onKeyDown` (clipboard.js 125-141) at wall-clock time `t`: while
locked only `preventDefault` fires; otherwise the event is dispatched by
modifier combination and `_lock` re-arms the 10 ms window. -/
def onKeyDown (s : CtrlState) (t : Nat) (e : KeyEvent) : KeyDownOut :=
  if lockedAt s t then ⟨s, [Eff.preventDefault], false⟩
  else
    let p := dispatchKey s e
    ⟨{ p.1 with lockUntil := some (t + 10) }, p.2, true⟩

/-- Distance between two visible indices. -/
def ndist (a b : Nat) : Nat :=
  if a ≤ b then b - a else a - b

/-! ## Concrete fixtures (mirroring the unit tests of `rowList.paste`) -/

/-- Three editable text columns, three rows — the fixture of the
`rowList.paste()` unit tests. -/
def exGrid3 : Grid :=
  { columns := [⟨"c1", true, false, ""⟩, ⟨"c2", true, false, ""⟩, ⟨"c3", true, false, ""⟩]
    rows :=
      [⟨0, false, [], [("c1", "0-1"), ("c2", "0-2"), ("c3", "0-3")]⟩,
       ⟨1, false, [], [("c1", "1-1"), ("c2", "1-2"), ("c3", "1-3")]⟩,
       ⟨2, false, [], [("c1", "2-1"), ("c2", "2-2"), ("c3", "2-3")]⟩] }

/-- `exGrid3` after pasting `[["New2-3","New2-4","New2-5"]]` at `(2,2)`:
only the in-range cell `(2, c3)` changes; nothing wraps, nothing is
clamped, no row is added. -/
def exGrid3AfterColOverflow : Grid :=
  { columns := exGrid3.columns
    rows :=
      [⟨0, false, [], [("c1", "0-1"), ("c2", "0-2"), ("c3", "0-3")]⟩,
       ⟨1, false, [], [("c1", "1-1"), ("c2", "1-2"), ("c3", "1-3")]⟩,
       ⟨2, false, [], [("c1", "2-1"), ("c2", "2-2"), ("c3", "New2-3")]⟩] }

/-- `exGrid3` after pasting `[["New2-2","New2-3"],["New3-2","New3-3"]]` at
`(2,1)`: row 3 is appended and takes the schema default (empty string) in
the column the paste does not cover. -/
def exGrid3AfterRowGrowth : Grid :=
  { columns := exGrid3.columns
    rows :=
      [⟨0, false, [], [("c1", "0-1"), ("c2", "0-2"), ("c3", "0-3")]⟩,
       ⟨1, false, [], [("c1", "1-1"), ("c2", "1-2"), ("c3", "1-3")]⟩,
       ⟨2, false, [], [("c1", "2-1"), ("c2", "New2-2"), ("c3", "New2-3")]⟩,
       ⟨3, false, [], [("c1", ""), ("c2", "New3-2"), ("c3", "New3-3")]⟩] }

/-- Two editable columns, row 0 disabled — the `rowState: 'DISABLED'`
fixture. -/
def exGridDisabled : Grid :=
  { columns := [⟨"c1", true, false, ""⟩, ⟨"c2", true, false, ""⟩]
    rows :=
      [⟨0, true, [], [("c1", "0-1"), ("c2", "0-2")]⟩,
       ⟨1, false, [], [("c1", "1-1"), ("c2", "1-2")]⟩] }

/-- Two editable columns, a row span of 2 on `c2` starting at row 0 — the
`rowSpan: {c2: 2}` fixture. -/
def exGridSpan : Grid :=
  { columns := [⟨"c1", true, false, ""⟩, ⟨"c2", true, false, ""⟩]
    rows :=
      [⟨0, false, [("c2", 2)], [("c1", "0-1"), ("c2", "0-2")]⟩,
       ⟨1, false, [], [("c1", "1-1"), ("c2", "1-2")]⟩] }

/-- Columns `[c1, c2, c3]` with `c2` hidden, two rows — the hidden-column
fixture. -/
def exGridHidden : Grid :=
  { columns := [⟨"c1", true, false, ""⟩, ⟨"c2", true, true, ""⟩, ⟨"c3", true, false, ""⟩]
    rows :=
      [⟨0, false, [], [("c1", "0-1"), ("c2", "0-2"), ("c3", "0-3")]⟩,
       ⟨1, false, [], [("c1", "1-1"), ("c2", "1-2"), ("c3", "1-3")]⟩] }

/-- A quiescent controller: unlocked, nothing armed, a cell focused. -/
def baseCtrl : CtrlState :=
  { lockUntil := none
    pasting := false
    keyupHandlers := 0
    clipText := "x\ty"
    grid := exGrid3
    selection := none
    focusIdx := ⟨0, 0⟩
    focusedRowKey := some 0
    focusedColumnName := "c1"
    getPageMovedRowIndex := fun i _ => i }

/-- `baseCtrl` while the re-entrancy lock is held until time 100. -/
def lockedCtrl : CtrlState :=
  { baseCtrl with lockUntil := some 100 }

/-- `baseCtrl` with a blank focused row key. -/
def blankFocusCtrl : CtrlState :=
  { baseCtrl with focusedRowKey := none }

/-- `baseCtrl` with an active selection whose top-left corner is `(1, 0)`. -/
def selCtrl : CtrlState :=
  { baseCtrl with selection := some ⟨1, 2, 0, 1⟩ }

/-- Focus at row 5 strictly inside the selected row interval `[0, 6]`:
the corner `0` is farther from the focus than the corner `6`, yet
`_getIndexBeforeMove` picks `6`. -/
def insideFocusCtrl : CtrlState :=
  { baseCtrl with selection := some ⟨0, 6, 0, 0⟩, focusIdx := ⟨5, 0⟩ }

/-! ## Association list lemmas -/

theorem lookupVal_setVal_self (l : List (String × String)) (k v : String) :
    lookupVal (setVal l k v) k = some v := by
  induction l with
  | nil => simp [setVal, lookupVal]
  | cons p rest ih =>
      by_cases h : p.1 = k
      · simp [setVal, h, lookupVal]
      · simp [setVal, h, lookupVal, ih]

theorem lookupVal_setVal_ne (l : List (String × String)) (k v k' : String) (h : k' ≠ k) :
    lookupVal (setVal l k v) k' = lookupVal l k' := by
  induction l with
  | nil => simp [setVal, lookupVal, Ne.symm h]
  | cons p rest ih =>
      obtain ⟨pk, pv⟩ := p
      by_cases hp : pk = k
      · subst hp
        simp [setVal, lookupVal, Ne.symm h]
      · by_cases hp' : pk = k'
        · simp [setVal, hp, lookupVal, hp', h]
        · simp [setVal, hp, lookupVal, hp', ih]

/-! ## Congruence along the column schema -/

theorem findColumn_congr {g g' : Grid} (h : g'.columns = g.columns) (cn : String) :
    findColumn g' cn = findColumn g cn := by
  unfold findColumn; rw [h]

theorem columnEditable_congr {g g' : Grid} (h : g'.columns = g.columns) (cn : String) :
    columnEditable g' cn = columnEditable g cn := by
  unfold columnEditable; rw [findColumn_congr h]

theorem visibleColumns_congr {g g' : Grid} (h : g'.columns = g.columns) :
    visibleColumns g' = visibleColumns g := by
  unfold visibleColumns; rw [h]

theorem resolveColumnName_congr {g g' : Grid} (h : g'.columns = g.columns) (idx : Nat) :
    resolveColumnName g' idx = resolveColumnName g idx := by
  unfold resolveColumnName; rw [visibleColumns_congr h]

/-- A resolved column name always belongs to a non-hidden schema entry. -/
theorem resolveColumnName_mem {g : Grid} {idx : Nat} {cn : String}
    (h : resolveColumnName g idx = some cn) :
    ∃ col ∈ g.columns, col.columnName = cn ∧ col.isHidden = false := by
  unfold resolveColumnName at h
  obtain ⟨col, hcol, hname⟩ := Option.map_eq_some'.mp h
  have hmem := List.getElem?_mem hcol
  refine ⟨col, List.mem_of_mem_filter hmem, hname, ?_⟩
  have := List.of_mem_filter hmem
  simpa using this

/-! ## Metadata preservation across store mutations -/

/-- `g'` extends `g`: same schema, at least as many rows, and every
pre-existing row keeps its `disabled` flag and `rowSpan` map. -/
def MetaLe (g g' : Grid) : Prop :=
  g'.columns = g.columns ∧ g.rows.length ≤ g'.rows.length ∧
    ∀ (i : Nat) (r : Row), g.rows[i]? = some r →
      ∃ r' : Row, g'.rows[i]? = some r' ∧ r'.disabled = r.disabled ∧ r'.rowSpan = r.rowSpan

theorem metaLe_refl (g : Grid) : MetaLe g g :=
  ⟨rfl, le_refl _, fun _ r h => ⟨r, h, rfl, rfl⟩⟩

theorem metaLe_trans {g g' g'' : Grid} (h1 : MetaLe g g') (h2 : MetaLe g' g'') :
    MetaLe g g'' := by
  refine ⟨h2.1.trans h1.1, h1.2.1.trans h2.2.1, fun i r h => ?_⟩
  obtain ⟨r', hr', hd', hs'⟩ := h1.2.2 i r h
  obtain ⟨r'', hr'', hd'', hs''⟩ := h2.2.2 i r' hr'
  exact ⟨r'', hr'', hd''.trans hd', hs''.trans hs'⟩

theorem growTo_columns (g : Grid) (k : Nat) : (growTo g k).columns = g.columns := by
  unfold growTo; split <;> rfl

theorem growTo_rows_get?_lt (g : Grid) (k i : Nat) (h : i < g.rows.length) :
    (growTo g k).rows[i]? = g.rows[i]? := by
  unfold growTo; split
  · rfl
  · exact List.getElem?_append_left h

theorem growTo_length (g : Grid) (k : Nat) :
    (growTo g k).rows.length = max g.rows.length (k + 1) := by
  unfold growTo; split
  · omega
  · simp only [List.length_append, List.length_map, List.length_range]
    omega

theorem metaLe_growTo (g : Grid) (k : Nat) : MetaLe g (growTo g k) := by
  refine ⟨growTo_columns g k, ?_, fun i r h => ?_⟩
  · rw [growTo_length]; omega
  · have hi : i < g.rows.length := (List.getElem?_eq_some.mp h).1
    exact ⟨r, (growTo_rows_get?_lt g k i hi).trans h, rfl, rfl⟩

theorem setRowAt_length (rows : List Row) (j : Nat) (cn v : String) :
    (setRowAt rows j cn v).length = rows.length := by
  unfold setRowAt
  split
  · simp [List.length_set]
  · rfl

theorem setRowsFrom_length (k : Nat) :
    ∀ (rows : List Row) (j : Nat) (cn v : String),
      (setRowsFrom rows j cn v k).length = rows.length := by
  induction k with
  | zero => intro rows j cn v; rfl
  | succ n ih =>
      intro rows j cn v
      simp only [setRowsFrom]
      rw [ih, setRowAt_length]

theorem setCellValue_columns (g : Grid) (i : Nat) (cn v : String) :
    (setCellValue g i cn v).columns = g.columns := by
  unfold setCellValue; split <;> rfl

theorem setCellValue_length (g : Grid) (i : Nat) (cn v : String) :
    (setCellValue g i cn v).rows.length = g.rows.length := by
  unfold setCellValue
  split
  · exact setRowsFrom_length _ _ _ _ _
  · rfl

theorem setRowAt_get? (rows : List Row) (j : Nat) (cn v : String) (i : Nat) :
    (setRowAt rows j cn v)[i]? =
      if j = i then (rows[i]?).map (fun r => setRowCell r cn v) else rows[i]? := by
  unfold setRowAt
  split
  case h_1 r hr =>
    by_cases hij : j = i
    · subst hij
      have hlt : j < rows.length := (List.getElem?_eq_some.mp hr).1
      rw [if_pos rfl, hr]
      simp [List.getElem?_set_self, hlt]
    · rw [if_neg hij, List.getElem?_set_ne hij]
  case h_2 hr =>
    by_cases hij : j = i
    · subst hij
      rw [if_pos rfl, hr]
      rfl
    · rw [if_neg hij]

theorem setRowsFrom_get? (k : Nat) :
    ∀ (rows : List Row) (j : Nat) (cn v : String) (i : Nat),
      (setRowsFrom rows j cn v k)[i]? =
        if j ≤ i ∧ i < j + k then (rows[i]?).map (fun r => setRowCell r cn v)
        else rows[i]? := by
  induction k with
  | zero =>
      intro rows j cn v i
      rw [if_neg (by omega)]
      rfl
  | succ n ih =>
      intro rows j cn v i
      simp only [setRowsFrom]
      rw [ih]
      by_cases hji : j = i
      · subst hji
        rw [if_neg (by omega), setRowAt_get?, if_pos rfl, if_pos (by omega)]
      · by_cases hrange : j + 1 ≤ i ∧ i < j + 1 + n
        · rw [if_pos hrange, setRowAt_get?, if_neg hji, if_pos (by omega)]
        · rw [if_neg hrange, setRowAt_get?, if_neg hji, if_neg (by omega)]

theorem setCellValue_of_none {g : Grid} {j : Nat} (hj : g.rows[j]? = none)
    (cn v : String) : setCellValue g j cn v = g := by
  unfold setCellValue
  rw [hj]

theorem setCellValue_rows_get?_some {g : Grid} {j : Nat} {rj : Row}
    (hj : g.rows[j]? = some rj) (cn v : String) (i : Nat) :
    (setCellValue g j cn v).rows[i]? =
      if j ≤ i ∧ i < j + max (spanCount rj cn) 1
      then (g.rows[i]?).map (fun r => setRowCell r cn v) else g.rows[i]? := by
  unfold setCellValue
  rw [hj]
  exact setRowsFrom_get? (max (spanCount rj cn) 1) g.rows j cn v i

theorem metaLe_setCellValue (g : Grid) (i : Nat) (cn v : String) :
    MetaLe g (setCellValue g i cn v) := by
  refine ⟨setCellValue_columns g i cn v, le_of_eq (setCellValue_length g i cn v).symm,
    fun i0 r h => ?_⟩
  cases hj : g.rows[i]? with
  | none =>
      rw [setCellValue_of_none hj]
      exact ⟨r, h, rfl, rfl⟩
  | some rj =>
      rw [setCellValue_rows_get?_some hj]
      split
      · exact ⟨setRowCell r cn v, by rw [h]; rfl, rfl, rfl⟩
      · exact ⟨r, h, rfl, rfl⟩

/-! ## `getValue` under single mutations -/

theorem getValue_growTo_lt (g : Grid) (k i : Nat) (cn : String) (h : i < g.rows.length) :
    getValue (growTo g k) i cn = getValue g i cn := by
  unfold getValue; rw [growTo_rows_get?_lt g k i h]

/-- A write (with its mirroring) only ever touches the written column. -/
theorem getValue_setCellValue_ne_col (g : Grid) (j : Nat) (cn0 v : String) (i : Nat)
    (cn : String) (h : cn0 ≠ cn) :
    getValue (setCellValue g j cn0 v) i cn = getValue g i cn := by
  cases hj : g.rows[j]? with
  | none => rw [setCellValue_of_none hj]
  | some rj =>
      unfold getValue
      rw [setCellValue_rows_get?_some hj]
      split
      · cases hri : g.rows[i]? with
        | none => rfl
        | some r =>
            simpa [setRowCell] using
              lookupVal_setVal_ne r.cells cn0 v cn (Ne.symm h)
      · rfl

/-! ## Invariance of the writability checks -/

theorem list_any_congr {α : Type} {l : List α} {p q : α → Bool}
    (h : ∀ x ∈ l, p x = q x) : l.any p = l.any q := by
  induction l with
  | nil => rfl
  | cons x xs ih =>
      simp only [List.any_cons]
      rw [h x (by simp), ih (fun y hy => h y (by simp [hy]))]

theorem rowDisabled_metaLe {g g' : Grid} (hm : MetaLe g g') {i : Nat}
    (hi : i < g.rows.length) : rowDisabled g' i = rowDisabled g i := by
  obtain ⟨r, hr⟩ : ∃ r, g.rows[i]? = some r := ⟨g.rows[i], List.getElem?_eq_getElem hi⟩
  obtain ⟨r', hr', hd, _⟩ := hm.2.2 i r hr
  unfold rowDisabled
  rw [hr, hr']
  exact hd

theorem isRowSpanFollower_metaLe {g g' : Grid} (hm : MetaLe g g') {i : Nat}
    (hi : i < g.rows.length) (cn : String) :
    isRowSpanFollower g'.rows i cn = isRowSpanFollower g.rows i cn := by
  unfold isRowSpanFollower
  apply list_any_congr
  intro j hj
  have hjlt : j < g.rows.length := lt_trans (List.mem_range.mp hj) hi
  obtain ⟨rj, hrj⟩ : ∃ rj, g.rows[j]? = some rj := ⟨g.rows[j], List.getElem?_eq_getElem hjlt⟩
  obtain ⟨rj', hrj', _, hs⟩ := hm.2.2 j rj hrj
  rw [hrj, hrj']
  simp only [spanCount, hs]

theorem cellWritable_metaLe {g g' : Grid} (hm : MetaLe g g') {i : Nat}
    (hi : i < g.rows.length) (cn : String) :
    cellWritable g' i cn = cellWritable g i cn := by
  obtain ⟨r, hr⟩ : ∃ r, g.rows[i]? = some r := ⟨g.rows[i], List.getElem?_eq_getElem hi⟩
  obtain ⟨r', hr', _, _⟩ := hm.2.2 i r hr
  unfold cellWritable
  rw [hr, hr', rowDisabled_metaLe hm hi, columnEditable_congr hm.1,
    isRowSpanFollower_metaLe hm hi]

/-- A cell in a disabled row, a column without edit capability, or a
row-span follower position is not writable. -/
theorem cellWritable_false_of_excluded {g : Grid} {i : Nat} {cn : String}
    (hex : rowDisabled g i = true ∨ columnEditable g cn = false ∨
      isRowSpanFollower g.rows i cn = true) :
    cellWritable g i cn = false := by
  unfold cellWritable
  split
  · rcases hex with hd | he | hf
    · simp [hd]
    · simp [he]
    · simp [hf]
  · rfl

/-! ## Preservation of blocked cells through paste and delete -/

/-- A guarded write at `(j, cn0)` — a write that required
`cellWritable g' j cn0` — cannot change the stored value at `(i, cn)` when
the columns differ, or when the cell is neither writable nor a row-span
follower (so it is not a mirror target either), or when its column has no
edit capability (writes and their mirrors only happen in editable
columns). -/
theorem getValue_setCellValue_miss {g : Grid} {i : Nat} {cn : String}
    (hi : i < g.rows.length) {g' : Grid} (hm : MetaLe g g')
    {j : Nat} {cn0 : String} (v : String)
    (hw : cellWritable g' j cn0 = true)
    (hmiss : cn0 ≠ cn ∨
      (cellWritable g i cn = false ∧ isRowSpanFollower g.rows i cn = false) ∨
      columnEditable g cn = false) :
    getValue (setCellValue g' j cn0 v) i cn = getValue g' i cn := by
  by_cases hcol : cn0 = cn
  case neg => exact getValue_setCellValue_ne_col g' j cn0 v i cn hcol
  case pos =>
    subst hcol
    obtain ⟨rj, hj⟩ : ∃ rj, g'.rows[j]? = some rj := by
      unfold cellWritable at hw
      revert hw
      split
      case h_1 r hr => exact fun _ => ⟨r, hr⟩
      case h_2 => exact fun hw => absurd hw (by simp)
    rcases hmiss with hne | hblock | he
    · exact absurd rfl hne
    · unfold getValue
      rw [setCellValue_rows_get?_some hj]
      split
      case isTrue hcond =>
        exfalso
        by_cases hij : j = i
        · subst hij
          rw [cellWritable_metaLe hm hi] at hw
          rw [hblock.1] at hw
          exact absurd hw (by simp)
        · have hji : j < i := by omega
          have hspan : i < j + spanCount rj cn0 := by omega
          have hfol : isRowSpanFollower g'.rows i cn0 = true := by
            unfold isRowSpanFollower
            rw [List.any_eq_true]
            refine ⟨j, List.mem_range.mpr hji, ?_⟩
            simp only [hj]
            exact decide_eq_true hspan
          rw [isRowSpanFollower_metaLe hm hi] at hfol
          rw [hblock.2] at hfol
          exact absurd hfol (by simp)
      case isFalse => rfl
    · exfalso
      have hce : columnEditable g' cn0 = true := by
        unfold cellWritable at hw
        revert hw
        split
        case h_1 =>
          intro hw
          simp only [Bool.and_eq_true] at hw
          exact hw.1.2
        case h_2 => exact fun hw => absurd hw (by simp)
      rw [columnEditable_congr hm.1] at hce
      rw [he] at hce
      exact absurd hce (by simp)

/-- A cell the mutation algorithms must leave alone, even through row-span
mirroring: either it is not writable and not a follower (so it is neither
a direct target nor a mirror target), or its column name denotes only
hidden schema entries (and hence is never produced by visible-index
resolution), or its column has no edit capability (so its column is never
written at all). -/
def BlockedCell (g : Grid) (i : Nat) (cn : String) : Prop :=
  (cellWritable g i cn = false ∧ isRowSpanFollower g.rows i cn = false) ∨
    (∀ col ∈ g.columns, col.columnName = cn → col.isHidden = true) ∨
    columnEditable g cn = false

theorem pasteCell_preserve {g : Grid} {i : Nat} {cn : String}
    (hi : i < g.rows.length) (hb : BlockedCell g i cn)
    {g' : Grid} (hm : MetaLe g g') (j c : Nat) (v : String) :
    getValue (pasteCell g' j c v) i cn = getValue g' i cn ∧
      MetaLe g (pasteCell g' j c v) := by
  have hi' : i < g'.rows.length := lt_of_lt_of_le hi hm.2.1
  unfold pasteCell
  split
  case isFalse => exact ⟨rfl, hm⟩
  case isTrue hc =>
    have hm1 : MetaLe g (growTo g' j) := metaLe_trans hm (metaLe_growTo g' j)
    have hgv1 : getValue (growTo g' j) i cn = getValue g' i cn :=
      getValue_growTo_lt g' j i cn hi'
    split
    case h_2 => exact ⟨hgv1, hm1⟩
    case h_1 cn0 hres =>
      split
      case isFalse => exact ⟨hgv1, hm1⟩
      case isTrue hw =>
        refine ⟨?_, metaLe_trans hm1 (metaLe_setCellValue _ j cn0 v)⟩
        have hstep : getValue (setCellValue (growTo g' j) j cn0 v) i cn =
            getValue (growTo g' j) i cn := by
          refine getValue_setCellValue_miss hi hm1 v hw ?_
          rcases hb with h1 | h2 | h3
          · exact Or.inr (Or.inl h1)
          · refine Or.inl ?_
            intro hcc
            subst hcc
            obtain ⟨col, hmem, hname, hhid⟩ := resolveColumnName_mem hres
            rw [growTo_columns, hm.1] at hmem
            have hc2 := h2 col hmem hname
            rw [hc2] at hhid
            exact absurd hhid (by simp)
          · exact Or.inr (Or.inr h3)
        rw [hstep, hgv1]

theorem pasteRowVals_preserve {g : Grid} {i : Nat} {cn : String}
    (hi : i < g.rows.length) (hb : BlockedCell g i cn) (vals : List String) :
    ∀ {g' : Grid}, MetaLe g g' → ∀ (j c : Nat),
      getValue (pasteRowVals g' j c vals) i cn = getValue g' i cn ∧
        MetaLe g (pasteRowVals g' j c vals) := by
  induction vals with
  | nil => intro g' hm j c; exact ⟨rfl, hm⟩
  | cons v rest ih =>
      intro g' hm j c
      obtain ⟨h1, hm1⟩ := pasteCell_preserve hi hb hm j c v
      obtain ⟨h2, hm2⟩ := ih hm1 j (c + 1)
      constructor
      · simp only [pasteRowVals]
        rw [h2]
        exact h1
      · simp only [pasteRowVals]
        exact hm2

theorem pasteRows_preserve {g : Grid} {i : Nat} {cn : String}
    (hi : i < g.rows.length) (hb : BlockedCell g i cn) (m : List (List String)) :
    ∀ {g' : Grid}, MetaLe g g' → ∀ (j c : Nat),
      getValue (pasteRows g' j c m) i cn = getValue g' i cn ∧
        MetaLe g (pasteRows g' j c m) := by
  induction m with
  | nil => intro g' hm j c; exact ⟨rfl, hm⟩
  | cons vals rest ih =>
      intro g' hm j c
      obtain ⟨h1, hm1⟩ := pasteRowVals_preserve hi hb vals hm j c
      obtain ⟨h2, hm2⟩ := ih hm1 (j + 1) c
      constructor
      · simp only [pasteRows]
        rw [h2]
        exact h1
      · simp only [pasteRows]
        exact hm2

/-- Any blocked pre-existing cell survives a whole paste unchanged. -/
theorem paste_preserve_blocked {g : Grid} {i : Nat} {cn : String}
    (hi : i < g.rows.length) (hb : BlockedCell g i cn)
    (m : List (List String)) (a : Address) :
    getValue (Grid.paste g m a) i cn = getValue g i cn :=
  (pasteRows_preserve hi hb m (metaLe_refl g) a.row a.column).1

theorem delVisibleCell_preserve {g : Grid} {i : Nat} {cn : String}
    (hi : i < g.rows.length) (hb : BlockedCell g i cn)
    {g' : Grid} (hm : MetaLe g g') (j c : Nat) :
    getValue (delVisibleCell g' j c) i cn = getValue g' i cn ∧
      MetaLe g (delVisibleCell g' j c) := by
  unfold delVisibleCell
  split
  case h_2 => exact ⟨rfl, hm⟩
  case h_1 cn0 hres =>
    unfold delCellAt
    split
    case isFalse => exact ⟨rfl, hm⟩
    case isTrue hw =>
      refine ⟨?_, metaLe_trans hm (metaLe_setCellValue g' j cn0 "")⟩
      refine getValue_setCellValue_miss hi hm "" hw ?_
      rcases hb with h1 | h2 | h3
      · exact Or.inr (Or.inl h1)
      · refine Or.inl ?_
        intro hcc
        subst hcc
        obtain ⟨col, hmem, hname, hhid⟩ := resolveColumnName_mem hres
        rw [hm.1] at hmem
        have hc2 := h2 col hmem hname
        rw [hc2] at hhid
        exact absurd hhid (by simp)
      · exact Or.inr (Or.inr h3)

theorem delRowCells_preserve {g : Grid} {i : Nat} {cn : String}
    (hi : i < g.rows.length) (hb : BlockedCell g i cn) (n : Nat) :
    ∀ {g' : Grid}, MetaLe g g' → ∀ (j c : Nat),
      getValue (delRowCells g' j c n) i cn = getValue g' i cn ∧
        MetaLe g (delRowCells g' j c n) := by
  induction n with
  | zero => intro g' hm j c; exact ⟨rfl, hm⟩
  | succ k ih =>
      intro g' hm j c
      obtain ⟨h1, hm1⟩ := delVisibleCell_preserve hi hb hm j c
      obtain ⟨h2, hm2⟩ := ih hm1 j (c + 1)
      constructor
      · simp only [delRowCells]
        rw [h2]
        exact h1
      · simp only [delRowCells]
        exact hm2

theorem delRowsRange_preserve {g : Grid} {i : Nat} {cn : String}
    (hi : i < g.rows.length) (hb : BlockedCell g i cn) (n : Nat) :
    ∀ {g' : Grid}, MetaLe g g' → ∀ (j c nc : Nat),
      getValue (delRowsRange g' j c nc n) i cn = getValue g' i cn ∧
        MetaLe g (delRowsRange g' j c nc n) := by
  induction n with
  | zero => intro g' hm j c nc; exact ⟨rfl, hm⟩
  | succ k ih =>
      intro g' hm j c nc
      obtain ⟨h1, hm1⟩ := delRowCells_preserve hi hb nc hm j c
      obtain ⟨h2, hm2⟩ := ih hm1 (j + 1) c nc
      constructor
      · simp only [delRowsRange]
        rw [h2]
        exact h1
      · simp only [delRowsRange]
        exact hm2

theorem delRange_preserve_blocked {g : Grid} {i : Nat} {cn : String}
    (hi : i < g.rows.length) (hb : BlockedCell g i cn) (r : Range) :
    getValue (delRange g r) i cn = getValue g i cn :=
  (delRowsRange_preserve hi hb _ (metaLe_refl g) r.rowStart r.colStart _).1

theorem delCellAt_preserve_miss {g : Grid} {i : Nat} {cn : String}
    (hi : i < g.rows.length)
    (hd : (cellWritable g i cn = false ∧ isRowSpanFollower g.rows i cn = false) ∨
      columnEditable g cn = false)
    (j : Nat) (cnd : String) :
    getValue (delCellAt g j cnd) i cn = getValue g i cn := by
  unfold delCellAt
  split
  case isFalse => rfl
  case isTrue hw =>
    refine getValue_setCellValue_miss hi (metaLe_refl g) "" hw ?_
    rcases hd with h | h
    · exact Or.inr (Or.inl h)
    · exact Or.inr (Or.inr h)

theorem delByKey_preserve_miss {g : Grid} {i : Nat} {cn : String}
    (hi : i < g.rows.length)
    (hd : (cellWritable g i cn = false ∧ isRowSpanFollower g.rows i cn = false) ∨
      columnEditable g cn = false)
    (key : Nat) (cnd : String) :
    getValue (delByKey g key cnd) i cn = getValue g i cn := by
  unfold delByKey
  split
  case h_1 jj hjj => exact delCellAt_preserve_miss hi hd jj cnd
  case h_2 => rfl

/-! ## Schema invariance of the mutations -/

theorem pasteCell_columns (g : Grid) (j c : Nat) (v : String) :
    (pasteCell g j c v).columns = g.columns := by
  unfold pasteCell
  split
  · split
    · split
      · rw [setCellValue_columns, growTo_columns]
      · exact growTo_columns g j
    · exact growTo_columns g j
  · rfl

theorem pasteRowVals_columns (vals : List String) :
    ∀ (g : Grid) (j c : Nat), (pasteRowVals g j c vals).columns = g.columns := by
  induction vals with
  | nil => intro g j c; rfl
  | cons v rest ih =>
      intro g j c
      simp only [pasteRowVals]
      rw [ih, pasteCell_columns]

/-! ## Row-count behaviour -/

theorem pasteCell_length (g : Grid) (j c : Nat) (v : String) :
    (pasteCell g j c v).rows.length =
      if c < (visibleColumns g).length then max g.rows.length (j + 1)
      else g.rows.length := by
  by_cases h : c < (visibleColumns g).length
  · rw [if_pos h]
    unfold pasteCell
    rw [if_pos h]
    split
    · split
      · rw [setCellValue_length, growTo_length]
      · exact growTo_length g j
    · exact growTo_length g j
  · rw [if_neg h]
    unfold pasteCell
    rw [if_neg h]

theorem pasteCell_length_ge (g : Grid) (j c : Nat) (v : String) :
    g.rows.length ≤ (pasteCell g j c v).rows.length := by
  rw [pasteCell_length]
  split <;> omega

theorem pasteRowVals_length_of_lt (vals : List String) :
    ∀ (g : Grid) (j c : Nat), j < g.rows.length →
      (pasteRowVals g j c vals).rows.length = g.rows.length := by
  induction vals with
  | nil => intro g j c _; rfl
  | cons v rest ih =>
      intro g j c hj
      simp only [pasteRowVals]
      have hc : (pasteCell g j c v).rows.length = g.rows.length := by
        rw [pasteCell_length]
        split <;> omega
      rw [ih (pasteCell g j c v) j (c + 1) (by omega), hc]

theorem pasteRowVals_length_cons (g : Grid) (j c : Nat) (v : String) (rest : List String)
    (hc : c < (visibleColumns g).length) :
    (pasteRowVals g j c (v :: rest)).rows.length = max g.rows.length (j + 1) := by
  simp only [pasteRowVals]
  have h1 : (pasteCell g j c v).rows.length = max g.rows.length (j + 1) := by
    rw [pasteCell_length, if_pos hc]
  rw [pasteRowVals_length_of_lt rest (pasteCell g j c v) j (c + 1) (by omega), h1]

theorem pasteRowVals_length_ge (vals : List String) :
    ∀ (g : Grid) (j c : Nat), g.rows.length ≤ (pasteRowVals g j c vals).rows.length := by
  induction vals with
  | nil => intro g j c; exact le_refl _
  | cons v rest ih =>
      intro g j c
      simp only [pasteRowVals]
      exact le_trans (pasteCell_length_ge g j c v) (ih (pasteCell g j c v) j (c + 1))

theorem pasteRows_length_ge (m : List (List String)) :
    ∀ (g : Grid) (j c : Nat), g.rows.length ≤ (pasteRows g j c m).rows.length := by
  induction m with
  | nil => intro g j c; exact le_refl _
  | cons vals rest ih =>
      intro g j c
      simp only [pasteRows]
      exact le_trans (pasteRowVals_length_ge vals g j c) (ih _ (j + 1) c)

/-- A paste never removes rows. -/
theorem paste_length_ge (g : Grid) (m : List (List String)) (a : Address) :
    g.rows.length ≤ (Grid.paste g m a).rows.length :=
  pasteRows_length_ge m g a.row a.column

theorem pasteRows_length (m : List (List String)) :
    ∀ (g : Grid) (j c : Nat), m ≠ [] → (∀ row ∈ m, row ≠ []) →
      c < (visibleColumns g).length →
      (pasteRows g j c m).rows.length = max g.rows.length (j + m.length) := by
  induction m with
  | nil => intro g j c hne _ _; exact absurd rfl hne
  | cons vals rest ih =>
      intro g j c _ hrows hc
      obtain ⟨v, vs, hv⟩ : ∃ v vs, vals = v :: vs := by
        cases hval : vals with
        | nil => exact absurd (hval ▸ hrows vals (by simp [hval])) (by simp [hval])
        | cons v vs => exact ⟨v, vs, rfl⟩
      subst hv
      simp only [pasteRows]
      have h1 := pasteRowVals_length_cons g j c v vs hc
      cases rest with
      | nil =>
          simp only [pasteRows]
          rw [h1]
          simp
      | cons vals2 rest2 =>
          have hcols : (visibleColumns (pasteRowVals g j c (v :: vs))).length =
              (visibleColumns g).length := by
            rw [visibleColumns_congr (pasteRowVals_columns (v :: vs) g j c)]
          have h2 := ih (pasteRowVals g j c (v :: vs)) (j + 1) c (by simp)
            (fun row hr => hrows row (by simp [hr])) (by omega)
          rw [h2, h1]
          simp only [List.length_cons]
          omega

/-- Row-count formula for a paste whose start column is in range and whose
matrix rows are all non-empty: rows grow exactly far enough that every
target row exists. -/
theorem paste_length (g : Grid) (m : List (List String)) (a : Address)
    (hm : m ≠ []) (hrows : ∀ row ∈ m, row ≠ [])
    (hc : a.column < (visibleColumns g).length) :
    (Grid.paste g m a).rows.length = max g.rows.length (a.row + m.length) :=
  pasteRows_length m g a.row a.column hm hrows hc

theorem delCellAt_length (g : Grid) (j : Nat) (cnd : String) :
    (delCellAt g j cnd).rows.length = g.rows.length := by
  unfold delCellAt
  split
  · exact setCellValue_length g j cnd ""
  · rfl

theorem delVisibleCell_length (g : Grid) (j c : Nat) :
    (delVisibleCell g j c).rows.length = g.rows.length := by
  unfold delVisibleCell
  split
  · exact delCellAt_length g j _
  · rfl

theorem delRowCells_length (n : Nat) :
    ∀ (g : Grid) (j c : Nat), (delRowCells g j c n).rows.length = g.rows.length := by
  induction n with
  | zero => intro g j c; rfl
  | succ k ih =>
      intro g j c
      simp only [delRowCells]
      rw [ih, delVisibleCell_length]

theorem delRowsRange_length (n : Nat) :
    ∀ (g : Grid) (j c nc : Nat), (delRowsRange g j c nc n).rows.length = g.rows.length := by
  induction n with
  | zero => intro g j c nc; rfl
  | succ k ih =>
      intro g j c nc
      simp only [delRowsRange]
      rw [ih, delRowCells_length]

/-- A range deletion never changes the row count. -/
theorem delRange_length (g : Grid) (r : Range) :
    (delRange g r).rows.length = g.rows.length :=
  delRowsRange_length _ g r.rowStart r.colStart _

/-- A single-cell deletion never changes the row count. -/
theorem delByKey_length (g : Grid) (key : Nat) (cnd : String) :
    (delByKey g key cnd).rows.length = g.rows.length := by
  unfold delByKey
  split
  · exact delCellAt_length g _ cnd
  · rfl

/-! ## Column-overflow cells are dropped -/

theorem pasteRowVals_out (vals : List String) :
    ∀ (g : Grid) (j c : Nat), (visibleColumns g).length ≤ c →
      pasteRowVals g j c vals = g := by
  induction vals with
  | nil => intro g j c _; rfl
  | cons v rest ih =>
      intro g j c h
      simp only [pasteRowVals]
      have hcell : pasteCell g j c v = g := by
        unfold pasteCell
        rw [if_neg (by omega)]
      rw [hcell, ih g j (c + 1) (by omega)]

theorem pasteRowVals_take (vals : List String) :
    ∀ (g : Grid) (j c : Nat),
      pasteRowVals g j c vals =
        pasteRowVals g j c (vals.take ((visibleColumns g).length - c)) := by
  induction vals with
  | nil => intro g j c; rw [List.take_nil]
  | cons v rest ih =>
      intro g j c
      by_cases hc : c < (visibleColumns g).length
      · have hsub : (visibleColumns g).length - c = ((visibleColumns g).length - (c + 1)) + 1 := by
          omega
        rw [hsub, List.take_succ_cons]
        simp only [pasteRowVals]
        have hcols : (visibleColumns (pasteCell g j c v)).length = (visibleColumns g).length := by
          rw [visibleColumns_congr (pasteCell_columns g j c v)]
        rw [ih (pasteCell g j c v) j (c + 1), hcols]
      · have hsub : (visibleColumns g).length - c = 0 := by omega
        rw [hsub, List.take_zero]
        exact pasteRowVals_out (v :: rest) g j c (by omega)

theorem pasteRows_take (m : List (List String)) :
    ∀ (g : Grid) (j c : Nat),
      pasteRows g j c m =
        pasteRows g j c (m.map (fun row => row.take ((visibleColumns g).length - c))) := by
  induction m with
  | nil => intro g j c; rfl
  | cons vals rest ih =>
      intro g j c
      simp only [List.map_cons, pasteRows]
      rw [← pasteRowVals_take vals g j c]
      have hcols : (visibleColumns (pasteRowVals g j c vals)).length =
          (visibleColumns g).length := by
        rw [visibleColumns_congr (pasteRowVals_columns vals g j c)]
      rw [ih (pasteRowVals g j c vals) (j + 1) c, hcols]

/-- Matrix cells whose target column index falls at or beyond the visible
column count never influence a paste: truncating every matrix row to the
available width yields the same grid. -/
theorem paste_take (g : Grid) (m : List (List String)) (a : Address) :
    Grid.paste g m a =
      Grid.paste g (m.map (fun row => row.take ((visibleColumns g).length - a.column)))
        a :=
  pasteRows_take m g a.row a.column

theorem pasteRows_skip (m : List (List String)) :
    ∀ (g : Grid) (j c : Nat), (visibleColumns g).length ≤ c →
      pasteRows g j c m = g := by
  induction m with
  | nil => intro g j c _; rfl
  | cons vals rest ih =>
      intro g j c h
      simp only [pasteRows]
      rw [pasteRowVals_out vals g j c h, ih g (j + 1) c h]

/-- A paste whose start column already lies beyond the visible columns is a
complete no-op: no write and no row growth. -/
theorem paste_skip (g : Grid) (m : List (List String)) (a : Address)
    (h : (visibleColumns g).length ≤ a.column) : Grid.paste g m a = g :=
  pasteRows_skip m g a.row a.column h

/-! ## Clip-matrix parsing facts -/

theorem splitChar_ne_nil (sep : Char) (l : List Char) : splitChar sep l ≠ [] := by
  induction l with
  | nil => simp [splitChar]
  | cons c rest ih =>
      simp only [splitChar]
      by_cases h : c = sep
      · simp [h]
      · rw [if_neg h]
        cases hr : splitChar sep rest with
        | nil => exact absurd hr ih
        | cons hd tl => simp

theorem splitChar_length (sep : Char) (l : List Char) :
    (splitChar sep l).length = l.count sep + 1 := by
  induction l with
  | nil => rfl
  | cons c rest ih =>
      simp only [splitChar]
      by_cases h : c = sep
      · rw [if_pos h]
        simp [List.count_cons, h, ih]
      · rw [if_neg h]
        cases hr : splitChar sep rest with
        | nil => exact absurd hr (splitChar_ne_nil sep rest)
        | cons hd tl =>
            rw [hr] at ih
            simp only [List.length_cons] at ih
            simp [List.count_cons, h, ih]

theorem jsSplit_length (s : String) (sep : Char) :
    (jsSplit s sep).length = s.data.count sep + 1 := by
  unfold jsSplit
  rw [List.length_map, splitChar_length]

/-! ## Keyup bookkeeping -/

theorem keyups_of_no_handlers (k : Nat) (s : CtrlState) (h : s.keyupHandlers = 0) :
    keyups k s = (s, 0) := by
  induction k with
  | zero => rfl
  | succ n ih =>
      simp only [keyups, onKeyup, h, runKeyupHandlers]
      exact congrArg (fun p : CtrlState × Nat => (p.1, 0 + p.2)) ih

/-! ## One-axis anchor arithmetic -/

theorem anchor1d (s e f : Nat) (hse : s ≤ e) (hout : f ≤ s ∨ e ≤ f) :
    ((if e > f then e else s) = s ∨ (if e > f then e else s) = e) ∧
    ndist s f ≤ ndist (if e > f then e else s) f ∧
    ndist e f ≤ ndist (if e > f then e else s) f := by
  unfold ndist
  split_ifs <;> omega

/-! ## Claim theorems -/

/-- C1 counterexample: the original claim fails on its row-span follower
clause.  In the span fixture, cell `(1, c2)` lies inside the pasted 2×2
rectangle at `(0, 0)` and is a row-span follower, yet it does not keep its
prior value `"1-2"`: it takes the main row's pasted value `"New0-2"`,
exactly as the repository's span unit test expects — followers mirror the
main row's value rather than being frozen. -/
theorem follower_in_rectangle_mutated :
    isRowSpanFollower exGridSpan.rows 1 "c2" = true ∧
    getValue exGridSpan 1 "c2" = some "1-2" ∧
    getValue (Grid.paste exGridSpan [["New0-1", "New0-2"], ["New1-1", "New1-2"]] ⟨0, 0⟩)
      1 "c2" = some "New0-2" ∧
    getValue (Grid.paste exGridSpan [["New0-1", "New0-2"], ["New1-1", "New1-2"]] ⟨0, 0⟩)
      1 "c2" ≠ getValue exGridSpan 1 "c2" := by decide

/-- C1 amended: for every paste or range/single-cell delete, every cell
inside the targeted rectangle that belongs to a column with no edit
capability keeps its prior value, and so does every cell of a disabled row
that is not a row-span follower; a row-span follower cell is never the
direct target of a write (the value aimed at it is dropped —
`cellWritable` is false there), but it mirrors its span's main row, so it
changes exactly when the main row's cell is written, taking the main row's
new value.  The universally quantified conjuncts cover the three mutation
entry points; the concrete conjuncts replay the unit tests: the 2×2 paste
onto the disabled-row grid changes exactly row 1, and the 2×2 paste onto
the span grid drops the value aimed at the follower while the follower's
stored value becomes the main row's pasted value. -/
theorem paste_delete_write_exclusions_amended
    (g : Grid) (m : List (List String)) (a : Address) (r : Range)
    (key : Nat) (dcn : String) (i : Nat) (cn : String)
    (hi : i < g.rows.length)
    (hex : columnEditable g cn = false ∨
      (rowDisabled g i = true ∧ isRowSpanFollower g.rows i cn = false)) :
    getValue (Grid.paste g m a) i cn = getValue g i cn ∧
    getValue (delRange g r) i cn = getValue g i cn ∧
    getValue (delByKey g key dcn) i cn = getValue g i cn ∧
    (isRowSpanFollower g.rows i cn = true → cellWritable g i cn = false) ∧
    Grid.paste exGridDisabled [["New0-1", "New0-2"], ["New1-1", "New1-2"]] ⟨0, 0⟩ =
      { columns := exGridDisabled.columns
        rows := [⟨0, true, [], [("c1", "0-1"), ("c2", "0-2")]⟩,
                 ⟨1, false, [], [("c1", "New1-1"), ("c2", "New1-2")]⟩] } ∧
    Grid.paste exGridSpan [["New0-1", "New0-2"], ["New1-1", "New1-2"]] ⟨0, 0⟩ =
      { columns := exGridSpan.columns
        rows := [⟨0, false, [("c2", 2)], [("c1", "New0-1"), ("c2", "New0-2")]⟩,
                 ⟨1, false, [], [("c1", "New1-1"), ("c2", "New0-2")]⟩] } := by
  have hblock : BlockedCell g i cn := by
    rcases hex with he | ⟨hdis, hnf⟩
    · exact Or.inr (Or.inr he)
    · exact Or.inl ⟨cellWritable_false_of_excluded (Or.inl hdis), hnf⟩
  have hdel : (cellWritable g i cn = false ∧ isRowSpanFollower g.rows i cn = false) ∨
      columnEditable g cn = false := by
    rcases hex with he | ⟨hdis, hnf⟩
    · exact Or.inr he
    · exact Or.inl ⟨cellWritable_false_of_excluded (Or.inl hdis), hnf⟩
  exact ⟨paste_preserve_blocked hi hblock m a,
    delRange_preserve_blocked hi hblock r,
    delByKey_preserve_miss hi hdel key dcn,
    fun hf => cellWritable_false_of_excluded (Or.inr (Or.inr hf)),
    by decide, by decide⟩

theorem paste_delete_write_exclusions_amended_witness :
    0 < exGridDisabled.rows.length ∧
    (columnEditable exGridDisabled "c1" = false ∨
      (rowDisabled exGridDisabled 0 = true ∧
        isRowSpanFollower exGridDisabled.rows 0 "c1" = false)) ∧
    getValue (Grid.paste exGridDisabled [["x"]] ⟨0, 0⟩) 0 "c1" =
      getValue exGridDisabled 0 "c1" ∧
    getValue (delRange exGridDisabled ⟨0, 1, 0, 1⟩) 0 "c1" =
      getValue exGridDisabled 0 "c1" ∧
    getValue (delByKey exGridDisabled 0 "c1") 0 "c1" = getValue exGridDisabled 0 "c1" :=
  ⟨by decide, by decide,
    (paste_delete_write_exclusions_amended exGridDisabled [["x"]] ⟨0, 0⟩ ⟨0, 1, 0, 1⟩
      0 "c1" 0 "c1" (by decide) (by decide)).1,
    (paste_delete_write_exclusions_amended exGridDisabled [["x"]] ⟨0, 0⟩ ⟨0, 1, 0, 1⟩
      0 "c1" 0 "c1" (by decide) (by decide)).2.1,
    (paste_delete_write_exclusions_amended exGridDisabled [["x"]] ⟨0, 0⟩ ⟨0, 1, 0, 1⟩
      0 "c1" 0 "c1" (by decide) (by decide)).2.2.1⟩

/-- C2: Paste resolves visible column indices through a positional sequence
from which hidden columns are excluded entirely.  Generally: resolution
only ever yields non-hidden schema entries, and a column name all of whose
schema entries are hidden is never mutated by any paste on any
pre-existing row.  Concretely (the unit-test scenario): with `c2` hidden
among `[c1, c2, c3]`, pasting `[[a, b], [c, d]]` at visible address
`(0, 0)` writes `a, c` to `c1` and `b, d` to `c3`, and both `c2` cells
keep their prior values. -/
theorem paste_hidden_columns_excluded
    (g : Grid) (m : List (List String)) (a : Address) (i : Nat) (cn : String)
    (hi : i < g.rows.length)
    (hhid : ∀ col ∈ g.columns, col.columnName = cn → col.isHidden = true) :
    getValue (Grid.paste g m a) i cn = getValue g i cn ∧
    (∀ (idx : Nat) (cn0 : String), resolveColumnName g idx = some cn0 →
      ∃ col ∈ g.columns, col.columnName = cn0 ∧ col.isHidden = false) ∧
    getValue (Grid.paste exGridHidden [["a", "b"], ["c", "d"]] ⟨0, 0⟩) 0 "c1" = some "a" ∧
    getValue (Grid.paste exGridHidden [["a", "b"], ["c", "d"]] ⟨0, 0⟩) 0 "c3" = some "b" ∧
    getValue (Grid.paste exGridHidden [["a", "b"], ["c", "d"]] ⟨0, 0⟩) 1 "c1" = some "c" ∧
    getValue (Grid.paste exGridHidden [["a", "b"], ["c", "d"]] ⟨0, 0⟩) 1 "c3" = some "d" ∧
    getValue (Grid.paste exGridHidden [["a", "b"], ["c", "d"]] ⟨0, 0⟩) 0 "c2" = some "0-2" ∧
    getValue (Grid.paste exGridHidden [["a", "b"], ["c", "d"]] ⟨0, 0⟩) 1 "c2" = some "1-2" :=
  ⟨paste_preserve_blocked hi (Or.inr (Or.inl hhid)) m a,
    fun _ _ h => resolveColumnName_mem h,
    by decide, by decide, by decide, by decide, by decide, by decide⟩

theorem paste_hidden_columns_excluded_witness :
    0 < exGridHidden.rows.length ∧
    (∀ col ∈ exGridHidden.columns, col.columnName = "c2" → col.isHidden = true) ∧
    getValue (Grid.paste exGridHidden [["x", "y"]] ⟨0, 0⟩) 0 "c2" =
      getValue exGridHidden 0 "c2" :=
  ⟨by decide, by decide,
    (paste_hidden_columns_excluded exGridHidden [["x", "y"]] ⟨0, 0⟩ 0 "c2"
      (by decide) (by decide)).1⟩

/-- C5: Matrix cells whose target column index reaches the visible column
count are dropped — truncating every matrix row to the available width
yields the identical grid (so nothing wraps to the next row and nothing is
clamped to the last column), a paste starting beyond the visible columns
is a complete no-op, and the operations are total (they are Lean
functions), so no error arises for out-of-range columns or fully-skipped
pastes.  The concrete conjunct replays the unit test: pasting three values
at visible column 2 of a three-column grid writes only `(2, c3)`. -/
theorem paste_column_overflow_dropped
    (g : Grid) (m : List (List String)) (a b : Address)
    (hskip : (visibleColumns g).length ≤ b.column) :
    Grid.paste g m a =
      Grid.paste g (m.map (fun row => row.take ((visibleColumns g).length - a.column))) a ∧
    Grid.paste g m b = g ∧
    Grid.paste exGrid3 [["New2-3", "New2-4", "New2-5"]] ⟨2, 2⟩ = exGrid3AfterColOverflow :=
  ⟨paste_take g m a, paste_skip g m b hskip, by decide⟩

theorem paste_column_overflow_dropped_witness :
    (visibleColumns exGrid3).length ≤ 5 ∧
    Grid.paste exGrid3 [["u", "v"]] ⟨0, 1⟩ =
      Grid.paste exGrid3
        [(["u", "v"].take ((visibleColumns exGrid3).length - 1))] ⟨0, 1⟩ ∧
    Grid.paste exGrid3 [["u", "v"]] ⟨0, 5⟩ = exGrid3 :=
  ⟨by decide,
    (paste_column_overflow_dropped exGrid3 [["u", "v"]] ⟨0, 1⟩ ⟨0, 5⟩ (by decide)).1,
    (paste_column_overflow_dropped exGrid3 [["u", "v"]] ⟨0, 1⟩ ⟨0, 5⟩ (by decide)).2.1⟩

/-- C6: A paste whose matrix row extent reaches past the current row count
appends exactly enough rows that every target row exists (row count
becomes `max (old count) (start row + matrix rows)` whenever the start
column is in range and every matrix row is non-empty); rows are never
removed by paste (count is monotone) nor by range or single-cell deletion
(count is preserved).  The concrete conjunct replays the unit test: a 2×2
paste at `(2, 1)` of a 3-row grid appends exactly one row, which takes the
schema default (empty string) in the uncovered column `c1`. -/
theorem paste_row_growth
    (g : Grid) (m : List (List String)) (a : Address) (r : Range)
    (key : Nat) (dcn : String)
    (hm : m ≠ []) (hrows : ∀ row ∈ m, row ≠ [])
    (hc : a.column < (visibleColumns g).length) :
    (Grid.paste g m a).rows.length = max g.rows.length (a.row + m.length) ∧
    g.rows.length ≤ (Grid.paste g m a).rows.length ∧
    (delRange g r).rows.length = g.rows.length ∧
    (delByKey g key dcn).rows.length = g.rows.length ∧
    Grid.paste exGrid3 [["New2-2", "New2-3"], ["New3-2", "New3-3"]] ⟨2, 1⟩ =
      exGrid3AfterRowGrowth :=
  ⟨paste_length g m a hm hrows hc, paste_length_ge g m a,
    delRange_length g r, delByKey_length g key dcn, by decide⟩

theorem paste_row_growth_witness :
    ([["p"], ["q"]] : List (List String)) ≠ [] ∧
    (∀ row ∈ ([["p"], ["q"]] : List (List String)), row ≠ []) ∧
    (0 : Nat) < (visibleColumns exGrid3).length ∧
    (Grid.paste exGrid3 [["p"], ["q"]] ⟨2, 0⟩).rows.length =
      max exGrid3.rows.length (2 + 2) :=
  ⟨by decide, by decide, by decide,
    (paste_row_growth exGrid3 [["p"], ["q"]] ⟨2, 0⟩ ⟨0, 0, 0, 0⟩ 0 "c1"
      (by decide) (by decide) (by decide)).1⟩

/-- C3: A single Ctrl+V key-down arms the paste pipeline: it registers one
`keyup` handler and sets the `pasting` flag; a second Ctrl+V while armed
registers no additional handler; and however many key-up events follow,
exactly one data read/paste occurs, because the handler removes itself on
its first invocation. -/
theorem ctrlV_paste_one_shot (s : CtrlState) (k : Nat)
    (hp : s.pasting = false) (hh : s.keyupHandlers = 0) :
    (pasteWhenKeyupCharV s).pasting = true ∧
    (pasteWhenKeyupCharV s).keyupHandlers = 1 ∧
    (pasteWhenKeyupCharV (pasteWhenKeyupCharV s)).keyupHandlers = 1 ∧
    (keyups (k + 1) (pasteWhenKeyupCharV s)).2 = 1 := by
  have h1 : pasteWhenKeyupCharV s =
      { s with clipText := "", pasting := true, keyupHandlers := 1 } := by
    simp [pasteWhenKeyupCharV, hp, hh]
  have h2 : pasteWhenKeyupCharV (pasteWhenKeyupCharV s) =
      { s with clipText := "", pasting := true, keyupHandlers := 1 } := by
    rw [h1]
    simp [pasteWhenKeyupCharV]
  have hOne : onKeyup (pasteWhenKeyupCharV s) =
      ({ pasteToGrid (pasteWhenKeyupCharV s) with pasting := false }, 1) := by
    rw [onKeyup, h1]
    rfl
  have hZero : ({ pasteToGrid (pasteWhenKeyupCharV s) with pasting := false }).keyupHandlers
      = 0 := by
    simp [pasteToGrid]
  refine ⟨by rw [h1], by rw [h1], by rw [h2], ?_⟩
  simp only [keyups]
  rw [hOne, keyups_of_no_handlers k _ hZero]
  rfl

theorem ctrlV_paste_one_shot_witness :
    baseCtrl.pasting = false ∧ baseCtrl.keyupHandlers = 0 ∧
    (pasteWhenKeyupCharV (pasteWhenKeyupCharV baseCtrl)).keyupHandlers = 1 ∧
    (keyups 3 (pasteWhenKeyupCharV baseCtrl)).2 = 1 :=
  ⟨rfl, rfl,
    (ctrlV_paste_one_shot baseCtrl 2 rfl rfl).2.2.1,
    (ctrlV_paste_one_shot baseCtrl 2 rfl rfl).2.2.2⟩

/-- C4: A key-down arriving while the re-entrancy lock is held only
prevents the default action — no dispatch, no state change.  A key-down
processed while unlocked is dispatched and re-arms the lock for 10 ms, so
of two key-downs within one window only the first is dispatched, while a
third key-down at or after the deadline is dispatched again. -/
theorem keydown_reentrancy_lock
    (sL sU : CtrlState) (t t1 t2 t3 : Nat) (e e1 e2 e3 : KeyEvent)
    (hL : lockedAt sL t = true)
    (hU : lockedAt sU t1 = false)
    (h2 : t2 < t1 + 10) (h3 : t1 + 10 ≤ t3) :
    onKeyDown sL t e = ⟨sL, [Eff.preventDefault], false⟩ ∧
    (onKeyDown sU t1 e1).dispatched = true ∧
    (onKeyDown sU t1 e1).state.lockUntil = some (t1 + 10) ∧
    (onKeyDown (onKeyDown sU t1 e1).state t2 e2).dispatched = false ∧
    (onKeyDown (onKeyDown sU t1 e1).state t2 e2).state = (onKeyDown sU t1 e1).state ∧
    (onKeyDown (onKeyDown (onKeyDown sU t1 e1).state t2 e2).state t3 e3).dispatched
      = true := by
  have hlockstep : ∀ (s : CtrlState) (tt : Nat) (ev : KeyEvent), lockedAt s tt = true →
      onKeyDown s tt ev = ⟨s, [Eff.preventDefault], false⟩ := by
    intro s tt ev h
    simp [onKeyDown, h]
  have hstep : ∀ (s : CtrlState) (tt : Nat) (ev : KeyEvent), lockedAt s tt = false →
      (onKeyDown s tt ev).dispatched = true ∧
        (onKeyDown s tt ev).state.lockUntil = some (tt + 10) := by
    intro s tt ev h
    constructor <;> simp [onKeyDown, h]
  have hA : onKeyDown sL t e = ⟨sL, [Eff.preventDefault], false⟩ := hlockstep sL t e hL
  obtain ⟨hB1, hB2⟩ := hstep sU t1 e1 hU
  have hC0 : lockedAt (onKeyDown sU t1 e1).state t2 = true := by
    unfold lockedAt
    rw [hB2]
    simpa using h2
  have hC := hlockstep _ t2 e2 hC0
  have hD0 : lockedAt (onKeyDown (onKeyDown sU t1 e1).state t2 e2).state t3 = false := by
    rw [hC]
    unfold lockedAt
    rw [hB2]
    simpa using by omega
  have hD := (hstep _ t3 e3 hD0).1
  exact ⟨hA, hB1, hB2, by rw [hC], by rw [hC], hD⟩

theorem keydown_reentrancy_lock_witness :
    lockedAt lockedCtrl 5 = true ∧
    lockedAt baseCtrl 0 = false ∧
    (5 : Nat) < 0 + 10 ∧ (0 : Nat) + 10 ≤ 10 ∧
    (onKeyDown (onKeyDown baseCtrl 0 ⟨false, false, false, 40⟩).state 5
      ⟨false, false, false, 40⟩).dispatched = false ∧
    (onKeyDown (onKeyDown (onKeyDown baseCtrl 0 ⟨false, false, false, 40⟩).state 5
      ⟨false, false, false, 40⟩).state 10 ⟨false, false, false, 40⟩).dispatched = true :=
  ⟨rfl, rfl, by decide, by decide,
    (keydown_reentrancy_lock lockedCtrl baseCtrl 5 0 5 10 ⟨false, false, false, 40⟩
      ⟨false, false, false, 40⟩ ⟨false, false, false, 40⟩ ⟨false, false, false, 40⟩
      rfl rfl (by decide) (by decide)).2.2.2.1,
    (keydown_reentrancy_lock lockedCtrl baseCtrl 5 0 5 10 ⟨false, false, false, 40⟩
      ⟨false, false, false, 40⟩ ⟨false, false, false, 40⟩ ⟨false, false, false, 40⟩
      rfl rfl (by decide) (by decide)).2.2.2.2.2⟩

/-- C7: The clip matrix is produced by splitting the captured text on
newline and then each row on tab; the row count is always one more than
the number of newlines (so never zero), each row has one more cell than
its number of tabs, and the empty string degrades to the one-row,
one-column matrix `[[""]]` rather than an error. -/
theorem clip_matrix_parse :
    (∀ s : String, getProcessClipBoardData s =
      (jsSplit s '\n').map (fun row => jsSplit row '\t')) ∧
    (∀ s : String, (getProcessClipBoardData s).length = s.data.count '\n' + 1) ∧
    (∀ r : String, (jsSplit r '\t').length = r.data.count '\t' + 1) ∧
    getProcessClipBoardData "" = [[""]] ∧
    getProcessClipBoardData "a\tb\nc\td" = [["a", "b"], ["c", "d"]] := by
  refine ⟨fun s => rfl, fun s => ?_, fun r => jsSplit_length r '\t', by decide, by decide⟩
  unfold getProcessClipBoardData
  rw [List.length_map, jsSplit_length]

/-- C8: The origin `_pasteToGrid` hands to the Row Data Store is the
selection's start (top-left) corner whenever a selection exists, and the
focused address otherwise. -/
theorem paste_origin_selection_or_focus (sSel sFoc : CtrlState) (r : Range)
    (hs : sSel.selection = some r) (hf : sFoc.selection = none) :
    getStartIndex r = ⟨r.rowStart, r.colStart⟩ ∧
    (pasteToGrid sSel).grid =
      Grid.paste sSel.grid (getProcessClipBoardData sSel.clipText) (getStartIndex r) ∧
    (pasteToGrid sFoc).grid =
      Grid.paste sFoc.grid (getProcessClipBoardData sFoc.clipText) sFoc.focusIdx := by
  refine ⟨rfl, ?_, ?_⟩
  · simp [pasteToGrid, hs]
  · simp [pasteToGrid, hf]

theorem paste_origin_selection_or_focus_witness :
    selCtrl.selection = some ⟨1, 2, 0, 1⟩ ∧
    baseCtrl.selection = none ∧
    (pasteToGrid selCtrl).grid =
      Grid.paste selCtrl.grid (getProcessClipBoardData selCtrl.clipText)
        (getStartIndex ⟨1, 2, 0, 1⟩) ∧
    (pasteToGrid baseCtrl).grid =
      Grid.paste baseCtrl.grid (getProcessClipBoardData baseCtrl.clipText)
        baseCtrl.focusIdx :=
  ⟨rfl, rfl,
    (paste_origin_selection_or_focus selCtrl baseCtrl ⟨1, 2, 0, 1⟩ rfl rfl).2.1,
    (paste_origin_selection_or_focus selCtrl baseCtrl ⟨1, 2, 0, 1⟩ rfl rfl).2.2⟩

/-- C9 counterexample: with the focus row (5) strictly inside the selected
row interval `[0, 6]`, `_getIndexBeforeMove` returns the corner 6, which
is strictly nearer to the focus than the corner 0 — so the anchor is not
"the corner of the existing selection farthest from the current focus
index" as claimed. -/
theorem anchor_not_farthest_corner :
    insideFocusCtrl.selection = some ⟨0, 6, 0, 0⟩ ∧
    insideFocusCtrl.focusIdx = ⟨5, 0⟩ ∧
    (getIndexBeforeMove insideFocusCtrl).1 = 6 ∧
    ndist 6 5 < ndist 0 5 :=
  ⟨rfl, rfl, rfl, by decide⟩

/-- C9 amended: per axis, the anchor is the selection's end corner when it
exceeds the focus index and the start corner otherwise; whenever the focus
does not lie strictly between the two corners of the (normalized)
selection on that axis — in particular whenever the focus sits at a corner
of the selection, the only situation arising from keyboard-built
selections — this is a corner at maximal distance from the focus.  With no
selection the anchor is the focus address itself. -/
theorem anchor_farthest_corner_amended (sN sS : CtrlState) (r : Range)
    (hN : sN.selection = none) (hS : sS.selection = some r)
    (hrn : r.rowStart ≤ r.rowEnd) (hcn : r.colStart ≤ r.colEnd)
    (hrow : sS.focusIdx.row ≤ r.rowStart ∨ r.rowEnd ≤ sS.focusIdx.row)
    (hcol : sS.focusIdx.column ≤ r.colStart ∨ r.colEnd ≤ sS.focusIdx.column) :
    getIndexBeforeMove sN = (sN.focusIdx.row, sN.focusIdx.column) ∧
    ((getIndexBeforeMove sS).1 = r.rowStart ∨ (getIndexBeforeMove sS).1 = r.rowEnd) ∧
    ndist r.rowStart sS.focusIdx.row ≤ ndist (getIndexBeforeMove sS).1 sS.focusIdx.row ∧
    ndist r.rowEnd sS.focusIdx.row ≤ ndist (getIndexBeforeMove sS).1 sS.focusIdx.row ∧
    ((getIndexBeforeMove sS).2 = r.colStart ∨ (getIndexBeforeMove sS).2 = r.colEnd) ∧
    ndist r.colStart sS.focusIdx.column ≤
      ndist (getIndexBeforeMove sS).2 sS.focusIdx.column ∧
    ndist r.colEnd sS.focusIdx.column ≤
      ndist (getIndexBeforeMove sS).2 sS.focusIdx.column := by
  have hgN : getIndexBeforeMove sN = (sN.focusIdx.row, sN.focusIdx.column) := by
    unfold getIndexBeforeMove
    rw [hN]
  have hgS : getIndexBeforeMove sS =
      ((if r.rowEnd > sS.focusIdx.row then r.rowEnd else r.rowStart),
       (if r.colEnd > sS.focusIdx.column then r.colEnd else r.colStart)) := by
    unfold getIndexBeforeMove
    rw [hS]
  obtain ⟨hr1, hr2, hr3⟩ := anchor1d r.rowStart r.rowEnd sS.focusIdx.row hrn hrow
  obtain ⟨hc1, hc2, hc3⟩ := anchor1d r.colStart r.colEnd sS.focusIdx.column hcn hcol
  rw [hgN, hgS]
  exact ⟨rfl, hr1, hr2, hr3, hc1, hc2, hc3⟩

theorem anchor_farthest_corner_amended_witness :
    baseCtrl.selection = none ∧
    selCtrl.selection = some ⟨1, 2, 0, 1⟩ ∧
    (1 : Nat) ≤ 2 ∧ (0 : Nat) ≤ 1 ∧
    (selCtrl.focusIdx.row ≤ 1 ∨ (2 : Nat) ≤ selCtrl.focusIdx.row) ∧
    (selCtrl.focusIdx.column ≤ 0 ∨ (1 : Nat) ≤ selCtrl.focusIdx.column) ∧
    ((getIndexBeforeMove selCtrl).1 = 1 ∨ (getIndexBeforeMove selCtrl).1 = 2) ∧
    ndist 2 selCtrl.focusIdx.row ≤ ndist (getIndexBeforeMove selCtrl).1
      selCtrl.focusIdx.row :=
  ⟨rfl, rfl, by decide, by decide, by decide, by decide,
    (anchor_farthest_corner_amended baseCtrl selCtrl ⟨1, 2, 0, 1⟩ rfl rfl
      (by decide) (by decide) (by decide) (by decide)).2.1,
    (anchor_farthest_corner_amended baseCtrl selCtrl ⟨1, 2, 0, 1⟩ rfl rfl
      (by decide) (by decide) (by decide) (by decide)).2.2.2.1⟩

/-- C10: For a key-down with no modifiers, a blank focused row key makes
`_keyIn` return immediately — no state change, no collaborator call, no
default-action suppression; with a focused cell, `selectionModel.end()` is
invoked after the dispatch whatever the key code, recognized or not. -/
theorem keyIn_blank_noop_and_always_selEnd (s1 s2 : CtrlState) (kc1 kc2 : Nat)
    (hb : s1.focusedRowKey = none) (hf : s2.focusedRowKey ≠ none) :
    keyIn s1 kc1 = (s1, []) ∧ Eff.selEnd ∈ (keyIn s2 kc2).2 := by
  constructor
  · simp [keyIn, hb]
  · have hne : s2.focusedRowKey.isNone = false := by
      cases ho : s2.focusedRowKey with
      | none => exact absurd ho hf
      | some v => rfl
    simp [keyIn, hne]

theorem keyIn_blank_noop_and_always_selEnd_witness :
    blankFocusCtrl.focusedRowKey = none ∧
    baseCtrl.focusedRowKey ≠ none ∧
    keyIn blankFocusCtrl 65 = (blankFocusCtrl, []) ∧
    Eff.selEnd ∈ (keyIn baseCtrl 999).2 :=
  ⟨rfl, by decide,
    (keyIn_blank_noop_and_always_selEnd blankFocusCtrl baseCtrl 65 999 rfl
      (by decide)).1,
    (keyIn_blank_noop_and_always_selEnd blankFocusCtrl baseCtrl 65 999 rfl
      (by decide)).2⟩
